import Mathlib

/-!
Verification development for the capacity-model Google Sheets integration
(`google_sheets_integration/cursor_integration.py`, `capacity_cli.py`).

The spreadsheet API delivers tables as lists of rows of strings; values the
program writes back may be strings or numbers.  Machine floats in the source
only ever hold human-scale sales figures parsed from decimal literals, so they
are embedded as rationals (`Rat`), and the Python `float(...)` call is embedded
as `parseFloat`, a decimal-literal parser returning `Option Rat` (`none` embeds
the `ValueError` raise).  Fallible operations return `Except String _`.
-/

namespace Capacity

/-- Digits-only string to a natural number; `none` when empty or any
non-digit appears. -/
def natOfDigits? (cs : List Char) : Option Nat :=
  if cs.isEmpty then none
  else cs.foldlM (fun n c => if c.isDigit then some (n * 10 + (c.toNat - 48)) else none) 0

/-- Leading sign of a numeric literal. -/
def parseSign : List Char → Int × List Char
  | '-' :: rest => (-1, rest)
  | '+' :: rest => (1, rest)
  | cs => (1, cs)

/-- Split at the first '.', if any. -/
def splitAtDot : List Char → List Char × Option (List Char)
  | [] => ([], none)
  | c :: rest =>
    if c = '.' then ([], some rest)
    else
      let (a, b) := splitAtDot rest
      (c :: a, b)

/-- Strip leading and trailing whitespace, as Python `float` does. -/
def trimChars (cs : List Char) : List Char :=
  ((cs.dropWhile Char.isWhitespace).reverse.dropWhile Char.isWhitespace).reverse

/-- Embedding of Python `float(s)` on the decimal literals this program
handles: optional surrounding whitespace, optional sign, digits with at most
one decimal point and at least one digit.  `none` embeds the `ValueError`
raise on anything else. -/
def parseFloat (s : String) : Option Rat :=
  let (sign, body) := parseSign (trimChars s.data)
  match splitAtDot body with
  | (ip, none) => (natOfDigits? ip).map (fun n => ((sign * n : Int) : Rat))
  | (ip, some fp) =>
    if ip.isEmpty && fp.isEmpty then none
    else
      match (if ip.isEmpty then some 0 else natOfDigits? ip),
            (if fp.isEmpty then some 0 else natOfDigits? fp) with
      | some i, some f =>
        some ((sign : Rat) * ((i : Rat) + (f : Rat) / (10 : Rat) ^ fp.length))
      | _, _ => none

/-- Association-list lookup, first match wins (Python `dict` access). -/
def alistLookup {α : Type} (d : List (String × α)) (k : String) : Option α :=
  match d with
  | [] => none
  | p :: rest => if p.1 = k then some p.2 else alistLookup rest k

/-- A rule of the Matrix sheet: the value bound to a role by
`get_matrix_criteria` (`{"keywords": ..., "minSales": ..., "maxSales": ...}`). -/
structure Criterion where
  keywords : String
  minSales : Rat
  maxSales : Rat
deriving DecidableEq, Repr

/-- Python `dict` assignment `d[k] = v` on an insertion-ordered association
list: an existing key keeps its position and gets the new value, a new key is
appended. -/
def dictInsert (d : List (String × Criterion)) (k : String) (v : Criterion) :
    List (String × Criterion) :=
  if d.any (fun p => p.1 = k) then
    d.map (fun p => if p.1 = k then (k, v) else p)
  else d ++ [(k, v)]

/-- Keys of the criteria dictionary, in insertion order. -/
def dictKeys (d : List (String × Criterion)) : List String :=
  d.map Prod.fst

/-- Cell `row[0]` of a Matrix row (the role cell; absent cells read as `""`,
which is also Python-falsy). -/
def rowRole (row : List String) : String := row.getD 0 ""

/-- Cell `row[1]` of a Matrix row (the keywords cell). -/
def rowKeywords (row : List String) : String := row.getD 1 ""

/-- The acceptance test `len(row) >= 4 and row[0] and row[1]` of
`get_matrix_criteria` (Python truthiness of a string is non-emptiness). -/
def acceptedRow (row : List String) : Bool :=
  decide (4 ≤ row.length) && decide (row.getD 0 "" ≠ "") && decide (row.getD 1 "" ≠ "")

/-- Embedding of `float(row[2]) if len(row) > 2 and row[2] else 0`; a non-empty cell that
`float` rejects raises `ValueError`. -/
def cellMin (row : List String) : Except String Rat :=
  if 2 < row.length ∧ row.getD 2 "" ≠ "" then
    match parseFloat (row.getD 2 "") with
    | some q => .ok q
    | none => .error "ValueError"
  else .ok 0

/-- Embedding of `float(row[3]) if len(row) > 3 and row[3] else 999999999`. -/
def cellMax (row : List String) : Except String Rat :=
  if 3 < row.length ∧ row.getD 3 "" ≠ "" then
    match parseFloat (row.getD 3 "") with
    | some q => .ok q
    | none => .error "ValueError"
  else .ok 999999999

/-- The parsed minSales of an accepted row, forced to its value on the
success path (`0` is never observed for a row the whole load accepted
erroneously: a load that raises returns no dictionary at all). -/
def cellMinD (row : List String) : Rat :=
  match cellMin row with
  | .ok q => q
  | .error _ => 0

/-- The parsed maxSales of an accepted row, forced to its success value. -/
def cellMaxD (row : List String) : Rat :=
  match cellMax row with
  | .ok q => q
  | .error _ => 999999999

/-- The criterion an accepted row contributes on the success path. -/
def criterionD (row : List String) : Criterion :=
  ⟨rowKeywords row, cellMinD row, cellMaxD row⟩

/-- The `for row in data[1:]` loop of `get_matrix_criteria`: accepted rows
bind `row[0]` to its criterion (Python dict assignment), other rows are
skipped; a `ValueError` from `float` aborts the loop. -/
def buildCriteria (acc : List (String × Criterion)) :
    List (List String) → Except String (List (String × Criterion))
  | [] => .ok acc
  | row :: rest =>
    if acceptedRow row then
      match cellMin row, cellMax row with
      | .ok mn, .ok mx =>
        buildCriteria (dictInsert acc (rowRole row) ⟨rowKeywords row, mn, mx⟩) rest
      | .error e, _ => .error e
      | _, .error e => .error e
    else buildCriteria acc rest

/-- Embedding of `get_matrix_criteria`: reads the Matrix table (here passed in as the
rows the Range Store returned), returns `{}` when it has fewer than two
rows, otherwise folds the data rows (header skipped) into the criteria
dictionary.  The `Except` error embeds the uncaught `ValueError` that a
non-empty unparsable sales cell raises. -/
def get_matrix_criteria (data : List (List String)) :
    Except String (List (String × Criterion)) :=
  if data.length < 2 then .ok []
  else buildCriteria [] (data.drop 1)

/-- A spreadsheet cell value as written back or produced by the pandas
layer: a string, a number, or a missing value (pandas `NaN`). -/
inductive Value
  | str (s : String)
  | num (q : Rat)
  | missing
deriving DecidableEq, Repr

/-- The header row `["Role", "Keywords", "Min Sales ($)", "Max Sales ($)"]`
that `update_matrix_criteria` always emits first. -/
def matrixHeader : List Value :=
  [.str "Role", .str "Keywords", .str "Min Sales ($)", .str "Max Sales ($)"]

/-- Embedding of `update_matrix_criteria`, modelled as the table it passes to
`write_sheet_data("Matrix", data)`: header first, then one four-cell row per
rule, in dictionary iteration (= insertion) order. -/
def update_matrix_criteria (criteria : List (String × Criterion)) :
    List (List Value) :=
  matrixHeader ::
    criteria.map (fun p =>
      [.str p.1, .str p.2.keywords, .num p.2.minSales, .num p.2.maxSales])

/-- Whether `needle` is a leading run of `haystack`. -/
def leadingRun : List Char → List Char → Bool
  | [], _ => true
  | _ :: _, [] => false
  | a :: as, b :: bs => a == b && leadingRun as bs

/-- Whether `needle` occurs contiguously inside `haystack` (JavaScript
`indexOf(...) !== -1` / Python `in` on strings). -/
def strContains : List Char → List Char → Bool
  | [], needle => needle.isEmpty
  | h :: rest, needle => leadingRun needle (h :: rest) || strContains rest needle

/-- Split at every ',' (the separator of a keyword list). -/
def splitOnComma : List Char → List (List Char)
  | [] => [[]]
  | c :: rest =>
    if c = ',' then [] :: splitOnComma rest
    else
      match splitOnComma rest with
      | [] => [[c]]
      | g :: gs => (c :: g) :: gs

/-- Lowercase a character sequence. -/
def lowerChars (cs : List Char) : List Char :=
  cs.map Char.toLower

/-- Modelled from the spec: keyword test of the Matrix Classifier.  The
classifier (`analyzeProjectMatrix` in
`google_sheets_integration/apps_script/capacity_model`) is exercised by the
tests of the repository but its source is not under `src/`.  Spec section 4.1:
split the comma-separated keyword list of the rule and test whether any keyword
is a substring of the lowercased description (keywords are compared
trimmed and lowercased). -/
def keywordHit (descLower : List Char) (keywords : String) : Bool :=
  (splitOnComma keywords.data).any
    (fun kw => strContains descLower (lowerChars (trimChars kw)))

/-- Modelled from the spec: a rule matches when a keyword hits and, the
sales-band fields being present, `minSales <= salesAmount <= maxSales`. -/
def ruleMatches (descLower : List Char) (salesAmount : Rat) (c : Criterion) : Bool :=
  keywordHit descLower c.keywords
    && decide (c.minSales ≤ salesAmount) && decide (salesAmount ≤ c.maxSales)

/-- Modelled from the spec: `classify(description, rules)` of the Matrix
Classifier (`analyzeProjectMatrix`, not under `src/`).  Spec section 4.1:
normalize the description to lowercase, take the first rule in order whose
keywords hit and whose sales band admits the amount; if none matches,
return the role of the last rule; an empty RuleSet yields no role. -/
def classify (description : String) (salesAmount : Rat)
    (rules : List (String × Criterion)) : Option String :=
  match rules.find? (fun p => ruleMatches (lowerChars description.data) salesAmount p.2) with
  | some p => some p.1
  | none => rules.getLast?.map Prod.fst

/-- An HTTP response as `trigger_capacity_model_generation` observes it:
the status code, and the JSON object that `response.json()` yields — or the
parse error it raises — flattened to the string-valued fields the code
reads. -/
structure HttpResponse where
  status_code : Nat
  body : Except String (List (String × String))

/-- Embedding of `trigger_capacity_model_generation`, as a function of the outcome of
`requests.post` (`.error` embeds a network error or timeout raised by the
transport; the surrounding `try/except` converts any raise to `False`).
Success requires `status_code == 200` and a JSON body whose `status` field
is `"success"`. -/
def trigger_capacity_model_generation (resp : Except String HttpResponse) : Bool :=
  match resp with
  | .error _ => false
  | .ok r =>
    if r.status_code = 200 then
      match r.body with
      | .error _ => false
      | .ok obj => decide (alistLookup obj "status" = some "success")
    else false

/-- The `service` handle of `GoogleSheetsIntegration` right after
`__init__`: `None` until `authenticate()` succeeds. -/
def initService : Option Unit := none

/-- Embedding of `read_sheet_data`, as a function of the `service` handle and of the
outcome of the underlying API call (`.error` embeds a raised transport
exception, `.ok` the `values` of the response).  `service == None` raises
`"Not authenticated"`; once authenticated, an API failure is caught and
becomes `[]`. -/
def read_sheet_data (service : Option Unit)
    (api : Except String (List (List String))) :
    Except String (List (List String)) :=
  match service with
  | none => .error "Not authenticated. Call authenticate() first."
  | some _ =>
    match api with
    | .ok v => .ok v
    | .error _ => .ok []

/-- Embedding of `write_sheet_data`, as a function of the `service` handle and of the
outcome of the underlying API update call (`.ok n` carries `updatedCells`).
`service == None` raises; once authenticated, an API failure is caught and
becomes `False`, success becomes `True`. -/
def write_sheet_data (service : Option Unit) (api : Except String Nat) :
    Except String Bool :=
  match service with
  | none => .error "Not authenticated. Call authenticate() first."
  | some _ =>
    match api with
    | .ok _ => .ok true
    | .error _ => .ok false

/-- One row of the Capacity Rep Projection table after numeric coercion:
name cells plus the six numeric columns `get_capacity_insights` reads. -/
structure CapacityRow where
  firstName : String
  lastName : String
  sales : Rat
  adminCount : Rat
  prodSpecCount : Rat
  srProdCount : Rat
  teamLeadCount : Rat
  intlCount : Rat
deriving DecidableEq, Repr

/-- Column sum over the dataset (pandas `df[col].sum()`). -/
def sumBy (f : CapacityRow → Rat) (rows : List CapacityRow) : Rat :=
  rows.foldr (fun r acc => f r + acc) 0

/-- The shared denominator of the capacity distribution:
`df[["Admin Count", "Prod Spec Count", "Sr. Prod Count", "Team Lead Count"]].sum().sum()`
(the international column is not part of the distribution). -/
def roleDenom (rows : List CapacityRow) : Rat :=
  sumBy CapacityRow.adminCount rows + sumBy CapacityRow.prodSpecCount rows
    + sumBy CapacityRow.srProdCount rows + sumBy CapacityRow.teamLeadCount rows

/-- One percentage of the capacity distribution:
`(roleTotal / denom) * 100 if denom > 0 else 0`. -/
def pct (roleTotal denom : Rat) : Rat :=
  if 0 < denom then roleTotal / denom * 100 else 0

/-- Embedding of `df.loc[df['Sales ($)'].idxmax()]`: the first row attaining the maximal
sales, computed as a left fold that replaces the champion only on a
strictly greater value. -/
def top1 (best : CapacityRow) : List CapacityRow → CapacityRow
  | [] => best
  | r :: rest => if best.sales < r.sales then top1 r rest else top1 best rest

/-- The insights dictionary built by `get_capacity_insights` (the
`total_projects` totals and the four percentages of
`capacity_distribution`). -/
structure Insights where
  total_sales_reps : Nat
  total_sales : Rat
  avg_sales_per_rep : Rat
  top_performer : CapacityRow
  admin_total : Rat
  prod_spec_total : Rat
  sr_prod_total : Rat
  team_lead_total : Rat
  international_total : Rat
  admin_percentage : Rat
  prod_spec_percentage : Rat
  sr_prod_percentage : Rat
  team_lead_percentage : Rat
deriving DecidableEq, Repr

/-- Embedding of `get_capacity_insights` over the coerced dataset: an empty DataFrame
yields `{}` (embedded as `none`) before any aggregate — in particular the
mean — is evaluated; otherwise every field is computed from the rows. -/
def get_capacity_insights : List CapacityRow → Option Insights
  | [] => none
  | r :: rest =>
    some
      { total_sales_reps := (r :: rest).length
        total_sales := sumBy CapacityRow.sales (r :: rest)
        avg_sales_per_rep :=
          sumBy CapacityRow.sales (r :: rest) / ((r :: rest).length : Rat)
        top_performer := top1 r rest
        admin_total := sumBy CapacityRow.adminCount (r :: rest)
        prod_spec_total := sumBy CapacityRow.prodSpecCount (r :: rest)
        sr_prod_total := sumBy CapacityRow.srProdCount (r :: rest)
        team_lead_total := sumBy CapacityRow.teamLeadCount (r :: rest)
        international_total := sumBy CapacityRow.intlCount (r :: rest)
        admin_percentage :=
          pct (sumBy CapacityRow.adminCount (r :: rest)) (roleDenom (r :: rest))
        prod_spec_percentage :=
          pct (sumBy CapacityRow.prodSpecCount (r :: rest)) (roleDenom (r :: rest))
        sr_prod_percentage :=
          pct (sumBy CapacityRow.srProdCount (r :: rest)) (roleDenom (r :: rest))
        team_lead_percentage :=
          pct (sumBy CapacityRow.teamLeadCount (r :: rest)) (roleDenom (r :: rest)) }

/-- The six columns `get_capacity_model_data` coerces with
`pd.to_numeric(..., errors="coerce").fillna(0)`. -/
def numericColumns : List String :=
  ["Sales ($)", "Admin Count", "Prod Spec Count", "Sr. Prod Count",
   "Team Lead Count", "Intl Project Count"]

/-- One coerced DataFrame row, aligned to the header: a cell of a declared
numeric column parses to its number or becomes `0` (`to_numeric` turns an
unparsable or absent cell into `NaN`, `fillna(0)` into `0`); any other
cell is kept as read, an absent one staying pandas-missing. -/
def coerceRow (header : List String) (row : List String) : List Value :=
  (List.range header.length).map (fun j =>
    if numericColumns.contains (header.getD j "") then
      .num (((row.get? j).bind parseFloat).getD 0)
    else
      match row.get? j with
      | some s => .str s
      | none => .missing)

/-- Embedding of `get_capacity_model_data`, modelled as the coerced table
`pd.DataFrame(data[1:], columns=data[0])` with the numeric columns coerced:
header first, then one coerced row per data row. -/
def get_capacity_model_data (data : List (List String)) : List (List Value) :=
  match data with
  | [] => []
  | header :: rows => (header.map .str) :: rows.map (coerceRow header)

/-! ## Claim C1: last-rule fallback of the classifier -/

/-- C1:  For every non-empty RuleSet and every description/amount on which
no rule matches — its normalized text contains no keyword of any rule, or
every keyword-matching rule is excluded by its sales band (`ruleMatches`
is the conjunction of the two tests) — `classify` returns the role of the
last rule, not a sentinel or "unclassified" value. -/
theorem classify_no_match_returns_last_role (description : String)
    (salesAmount : Rat) (rules : List (String × Criterion)) (hne : rules ≠ [])
    (hnomatch : ∀ p ∈ rules,
      ruleMatches (lowerChars description.data) salesAmount p.2 = false) :
    classify description salesAmount rules = some (rules.getLast hne).1 := by
  unfold classify
  rw [List.find?_eq_none.mpr (fun p hp => by simp [hnomatch p hp])]
  rw [List.getLast?_eq_getLast rules hne]
  rfl

/-- The rule table of the fallback test of the repository
(`test_analyze_project_matrix_default`), in load order. -/
def c1rules : List (String × Criterion) :=
  [("Admin", ⟨"admin,management", 0, 999999999⟩),
   ("Production Specialist", ⟨"production,assembly", 0, 999999999⟩)]

/-- Witness for C1 at the input of the fallback test: no keyword of either
rule occurs in the description, and the role of the last rule comes back. -/
theorem classify_no_match_returns_last_role_witness :
    classify "This is an unknown project type" 0 c1rules
      = some "Production Specialist" := by
  have h := classify_no_match_returns_last_role
    "This is an unknown project type" 0 c1rules (by decide) (by decide)
  exact h.trans (by decide)

/-! ## Claim C2: which Matrix rows produce a rule -/

/-- C2:  The claim (and spec section 4.2, and the
`test_get_matrix_criteria` test of the repository itself) says a row with two non-empty leading cells
(role, keywords) produces a rule, with absent 3rd/4th cells defaulting to
`0` and `999999999`.  The code instead requires `len(row) >= 4`, so on the
Matrix table of that very test — whose data rows have exactly two cells — it
returns an empty dictionary: the inner `len(row) > 2 and row[2]` defaults
are unreachable for short rows.  This evaluates the code at that failing
input. -/
theorem get_matrix_criteria_skips_two_cell_rows :
    get_matrix_criteria
      [["Role", "Criteria"],
       ["Admin", "admin,management"],
       ["Production Specialist", "production,assembly"]] = .ok [] := by
  rfl

/-! ## Claim C3: webhook trigger success condition -/

/-- A 201 Created response with the exact success body: 2xx, so the claim
says `trigger` returns true; the code tests `status_code == 200` and
returns false. -/
theorem trigger_201_success_body_is_false :
    trigger_capacity_model_generation
      (.ok ⟨201, .ok [("status", "success")]⟩) = false := by
  rfl

/-- C3 (amended):  `trigger_capacity_model_generation` returns true iff
the HTTP response arrived (no network error or timeout), its status code is
exactly 200 — not any other 2xx code — and its JSON body parses with
`status == "success"`; every other outcome yields false, never a raised
exception. -/
theorem trigger_true_iff_200_and_success (resp : Except String HttpResponse) :
    trigger_capacity_model_generation resp = true ↔
      ∃ r obj, resp = .ok r ∧ r.status_code = 200 ∧ r.body = .ok obj ∧
        alistLookup obj "status" = some "success" := by
  cases resp with
  | error e => simp [trigger_capacity_model_generation]
  | ok r =>
    cases hb : r.body with
    | error e =>
      simp only [trigger_capacity_model_generation, hb]
      constructor
      · intro h
        by_cases h200 : r.status_code = 200 <;> simp [h200] at h
      · rintro ⟨r', obj, hr, -, hbody, -⟩
        cases hr
        rw [hb] at hbody
        cases hbody
    | ok obj =>
      simp only [trigger_capacity_model_generation, hb]
      constructor
      · intro h
        by_cases h200 : r.status_code = 200
        · refine ⟨r, obj, rfl, h200, hb, ?_⟩
          simpa [h200] using h
        · simp [h200] at h
      · rintro ⟨r', obj', hr, h200, hbody, hstatus⟩
        cases hr
        rw [hb] at hbody
        cases hbody
        simp [h200, hstatus]

/-! ## Claim C6: empty dataset yields no insights -/

/-- C6:  `get_capacity_insights` returns the empty/absent summary
exactly on the empty dataset; for empty input the guard short-circuits
before any aggregate — in particular the mean, whose denominator would be
zero — is computed, so no division-by-zero failure reaches the caller. -/
theorem get_capacity_insights_none_iff_empty (rows : List CapacityRow) :
    get_capacity_insights rows = none ↔ rows = [] := by
  cases rows <;> simp [get_capacity_insights]

/-! ## Claim C8: authentication ordering and error conversion -/

/-- C8:  Before `authenticate` (the handle still `initService = none`),
`read_sheet_data` and `write_sheet_data` raise the not-authenticated error;
once authenticated, a transport failure of the underlying API call is
caught and converted to `[]` (read) or `False` (write), a success passes
through, and neither operation ever re-raises the transport exception. -/
theorem sheet_ops_auth_gate_and_error_conversion :
    (∀ api, read_sheet_data initService api
      = .error "Not authenticated. Call authenticate() first.") ∧
    (∀ api, write_sheet_data initService api
      = .error "Not authenticated. Call authenticate() first.") ∧
    (∀ u v, read_sheet_data (some u) (.ok v) = .ok v) ∧
    (∀ u e, read_sheet_data (some u) (.error e) = .ok []) ∧
    (∀ u n, write_sheet_data (some u) (.ok n) = .ok true) ∧
    (∀ u e, write_sheet_data (some u) (.error e) = .ok false) :=
  ⟨fun _ => rfl, fun _ => rfl, fun _ _ => rfl, fun _ _ => rfl,
   fun _ _ => rfl, fun _ _ => rfl⟩

/-! ## Claim C4: capacity-distribution percentages -/

/-- C4:  In every insights summary, the percentage of each role (the four
roles of `capacity_distribution`: admin, prod spec, sr. prod, team lead)
equals `100 * roleTotal / denom` where `denom` is the sum of those four
role totals — exactly, `Rat` arithmetic having no rounding; when that sum
is zero every percentage is `0` by the explicit guard in the code; and when it
is positive the four percentages sum to exactly 100. -/
theorem insights_percentages (rows : List CapacityRow) (i : Insights)
    (h : get_capacity_insights rows = some i) :
    (roleDenom rows = 0 →
      i.admin_percentage = 0 ∧ i.prod_spec_percentage = 0 ∧
      i.sr_prod_percentage = 0 ∧ i.team_lead_percentage = 0) ∧
    (0 < roleDenom rows →
      i.admin_percentage
          = 100 * sumBy CapacityRow.adminCount rows / roleDenom rows ∧
      i.prod_spec_percentage
          = 100 * sumBy CapacityRow.prodSpecCount rows / roleDenom rows ∧
      i.sr_prod_percentage
          = 100 * sumBy CapacityRow.srProdCount rows / roleDenom rows ∧
      i.team_lead_percentage
          = 100 * sumBy CapacityRow.teamLeadCount rows / roleDenom rows ∧
      i.admin_percentage + i.prod_spec_percentage + i.sr_prod_percentage
          + i.team_lead_percentage = 100) := by
  cases rows with
  | nil => simp [get_capacity_insights] at h
  | cons r rest =>
    simp only [get_capacity_insights, Option.some.injEq] at h
    subst h
    constructor
    · intro hd
      simp [pct, hd]
    · intro hd
      have hne : roleDenom (r :: rest) ≠ 0 := ne_of_gt hd
      have hform : ∀ t : Rat,
          pct t (roleDenom (r :: rest)) = 100 * t / roleDenom (r :: rest) := by
        intro t
        rw [pct, if_pos hd, div_mul_eq_mul_div, mul_comm]
      refine ⟨hform _, hform _, hform _, hform _, ?_⟩
      show pct (sumBy CapacityRow.adminCount (r :: rest)) (roleDenom (r :: rest))
          + pct (sumBy CapacityRow.prodSpecCount (r :: rest)) (roleDenom (r :: rest))
          + pct (sumBy CapacityRow.srProdCount (r :: rest)) (roleDenom (r :: rest))
          + pct (sumBy CapacityRow.teamLeadCount (r :: rest)) (roleDenom (r :: rest))
          = 100
      rw [hform, hform, hform, hform]
      rw [div_add_div_same, div_add_div_same, div_add_div_same]
      rw [show 100 * sumBy CapacityRow.adminCount (r :: rest)
            + 100 * sumBy CapacityRow.prodSpecCount (r :: rest)
            + 100 * sumBy CapacityRow.srProdCount (r :: rest)
            + 100 * sumBy CapacityRow.teamLeadCount (r :: rest)
          = 100 * roleDenom (r :: rest) by rw [roleDenom]; ring]
      exact mul_div_cancel_right₀ 100 hne

/-- A one-row dataset exercising C4: one admin project, nothing else. -/
def c4rows : List CapacityRow :=
  [⟨"John", "Doe", 1000, 1, 0, 0, 0, 0⟩]

/-- The insights summary the code computes on `c4rows`. -/
def c4insights : Insights :=
  ⟨1, 1000, 1000, ⟨"John", "Doe", 1000, 1, 0, 0, 0, 0⟩,
   1, 0, 0, 0, 0, 100, 0, 0, 0⟩

/-- Witness for C4 on `c4rows`: the denominator is 1, the admin percentage
is 100 and the four percentages sum to 100. -/
theorem insights_percentages_witness :
    (roleDenom c4rows = 0 →
      c4insights.admin_percentage = 0 ∧ c4insights.prod_spec_percentage = 0 ∧
      c4insights.sr_prod_percentage = 0 ∧ c4insights.team_lead_percentage = 0) ∧
    (0 < roleDenom c4rows →
      c4insights.admin_percentage
          = 100 * sumBy CapacityRow.adminCount c4rows / roleDenom c4rows ∧
      c4insights.prod_spec_percentage
          = 100 * sumBy CapacityRow.prodSpecCount c4rows / roleDenom c4rows ∧
      c4insights.sr_prod_percentage
          = 100 * sumBy CapacityRow.srProdCount c4rows / roleDenom c4rows ∧
      c4insights.team_lead_percentage
          = 100 * sumBy CapacityRow.teamLeadCount c4rows / roleDenom c4rows ∧
      c4insights.admin_percentage + c4insights.prod_spec_percentage
          + c4insights.sr_prod_percentage + c4insights.team_lead_percentage
          = 100) :=
  insights_percentages c4rows c4insights (by
    simp only [c4rows, c4insights, get_capacity_insights, sumBy, roleDenom,
      pct, top1, List.foldr, List.length]
    norm_num)

/-! ## Claim C7: top performer is the first maximal-sales row -/

/-- The running champion of `top1` dominates itself and everything it has
seen. -/
theorem top1_le (l : List CapacityRow) : ∀ b : CapacityRow,
    b.sales ≤ (top1 b l).sales ∧ ∀ r ∈ l, r.sales ≤ (top1 b l).sales := by
  induction l with
  | nil => intro b; simp [top1]
  | cons r rest ih =>
    intro b
    simp only [top1]
    by_cases hlt : b.sales < r.sales
    · rw [if_pos hlt]
      refine ⟨(le_of_lt hlt).trans (ih r).1, ?_⟩
      intro x hx
      rcases List.mem_cons.mp hx with rfl | hx
      · exact (ih x).1
      · exact (ih r).2 x hx
    · rw [if_neg hlt]
      refine ⟨(ih b).1, ?_⟩
      intro x hx
      rcases List.mem_cons.mp hx with rfl | hx
      · exact le_trans (le_of_not_lt hlt) (ih b).1
      · exact (ih b).2 x hx

/-- The champion of `top1` sits at the position of the first maximal entry:
everything strictly before it has strictly smaller sales. -/
theorem top1_first (l : List CapacityRow) : ∀ b : CapacityRow,
    ∃ pre post, b :: l = pre ++ top1 b l :: post ∧
      ∀ r ∈ pre, r.sales < (top1 b l).sales := by
  induction l with
  | nil => intro b; exact ⟨[], [], by simp [top1], by simp⟩
  | cons r rest ih =>
    intro b
    simp only [top1]
    by_cases hlt : b.sales < r.sales
    · rw [if_pos hlt]
      obtain ⟨pre, post, heq, hstrict⟩ := ih r
      refine ⟨b :: pre, post, by rw [List.cons_append, ← heq], ?_⟩
      intro x hx
      rcases List.mem_cons.mp hx with rfl | hx
      · exact lt_of_lt_of_le hlt (top1_le rest r).1
      · exact hstrict x hx
    · rw [if_neg hlt]
      obtain ⟨pre, post, heq, hstrict⟩ := ih b
      cases pre with
      | nil =>
        have hb : b = top1 b rest := by
          simpa using congrArg (fun t => t.headD b) heq
        refine ⟨[], r :: rest, ?_, by simp⟩
        rw [List.nil_append, ← hb]
      | cons p pre' =>
        rw [List.cons_append] at heq
        injection heq with h1 h2
        subst h1
        refine ⟨b :: r :: pre', post, ?_, ?_⟩
        · rw [List.cons_append, List.cons_append, ← h2]
        · intro x hx
          have hbtop : b.sales < (top1 b rest).sales :=
            hstrict b (List.mem_cons_self b pre')
          rcases List.mem_cons.mp hx with rfl | hx
          · exact hbtop
          rcases List.mem_cons.mp hx with rfl | hx
          · exact lt_of_le_of_lt (le_of_not_lt hlt) hbtop
          · exact hstrict x (List.mem_cons_of_mem b hx)

/-- C7:  For every non-empty dataset, the `top_performer` of the
insights summary dominates the sales of every row, and it is the first row in
input order attaining that maximum: the dataset splits around it with all
earlier rows strictly smaller. -/
theorem insights_top_performer (rows : List CapacityRow) (i : Insights)
    (h : get_capacity_insights rows = some i) :
    (∀ r ∈ rows, r.sales ≤ i.top_performer.sales) ∧
    ∃ pre post, rows = pre ++ i.top_performer :: post ∧
      ∀ r ∈ pre, r.sales < i.top_performer.sales := by
  cases rows with
  | nil => simp [get_capacity_insights] at h
  | cons r rest =>
    simp only [get_capacity_insights, Option.some.injEq] at h
    subst h
    refine ⟨?_, top1_first rest r⟩
    intro x hx
    rcases List.mem_cons.mp hx with rfl | hx
    · exact (top1_le rest x).1
    · exact (top1_le rest r).2 x hx

/-- The worked example of the spec: two reps with sales 1000 and 2000. -/
def c7rows : List CapacityRow :=
  [⟨"John", "Doe", 1000, 2, 3, 1, 1, 1⟩, ⟨"Jane", "Smith", 2000, 1, 4, 2, 1, 0⟩]

/-- The insights summary the code computes on `c7rows`. -/
def c7insights : Insights :=
  ⟨2, 3000, 1500, ⟨"Jane", "Smith", 2000, 1, 4, 2, 1, 0⟩,
   3, 7, 3, 2, 1,
   100 * 3 / 15, 100 * 7 / 15, 100 * 3 / 15, 100 * 2 / 15⟩

/-- Witness for C7 on the example of the spec: the 2000-sales record is the top
performer, only the 1000-sales record precedes it. -/
theorem insights_top_performer_witness :
    (∀ r ∈ c7rows, r.sales ≤ c7insights.top_performer.sales) ∧
    ∃ pre post, c7rows = pre ++ c7insights.top_performer :: post ∧
      ∀ r ∈ pre, r.sales < c7insights.top_performer.sales :=
  insights_top_performer c7rows c7insights (by
    simp only [c7rows, c7insights, get_capacity_insights, sumBy, roleDenom,
      pct, top1, List.foldr, List.length]
    norm_num)

/-! ## Dictionary lemmas shared by the Criteria Repository claims -/

/-- Lookup distributes over append, first dictionary first. -/
theorem alistLookup_append {α : Type} (r : String) :
    ∀ d₁ d₂ : List (String × α),
      alistLookup (d₁ ++ d₂) r = (alistLookup d₁ r).or (alistLookup d₂ r) := by
  intro d₁ d₂
  induction d₁ with
  | nil => simp [alistLookup]
  | cons p rest ih =>
    by_cases hp : p.1 = r
    · simp [alistLookup, hp]
    · simp [alistLookup, hp, ih]

/-- The in-place-update branch of `dictInsert` leaves the binding of every
other key alone and rebinds `k` exactly when it was bound. -/
theorem alistLookup_map_update (k : String) (v : Criterion) :
    ∀ d : List (String × Criterion),
      alistLookup (d.map (fun p => if p.1 = k then (k, v) else p)) k
        = if d.any (fun p => p.1 = k) then some v else none := by
  intro d
  induction d with
  | nil => simp [alistLookup]
  | cons p rest ih =>
    by_cases hp : p.1 = k
    · simp [alistLookup, hp]
    · rw [List.map_cons, if_neg hp, alistLookup, if_neg hp, ih, List.any_cons]
      rw [decide_eq_false hp, Bool.false_or]

/-- After `d[k] = v`, looking up `k` yields `v`. -/
theorem alistLookup_dictInsert_self (d : List (String × Criterion))
    (k : String) (v : Criterion) :
    alistLookup (dictInsert d k v) k = some v := by
  rw [dictInsert]
  by_cases hany : d.any (fun p => p.1 = k) = true
  · rw [if_pos hany, alistLookup_map_update, if_pos hany]
  · rw [if_neg hany, alistLookup_append]
    have hnone : alistLookup d k = none := by
      rw [Bool.not_eq_true] at hany
      induction d with
      | nil => rfl
      | cons p rest ih =>
        simp only [List.any_cons, Bool.or_eq_false_iff] at hany
        have hp : ¬p.1 = k := by simpa using hany.1
        simp [alistLookup, hp, ih hany.2]
    simp [hnone, alistLookup]

/-- Updating via `d[k] = v` does not touch the binding of any other key. -/
theorem alistLookup_dictInsert_ne (d : List (String × Criterion))
    (k : String) (v : Criterion) (r : String) (hkr : k ≠ r) :
    alistLookup (dictInsert d k v) r = alistLookup d r := by
  rw [dictInsert]
  by_cases hany : d.any (fun p => p.1 = k) = true
  · rw [if_pos hany]
    induction d with
    | nil => rfl
    | cons p rest ih =>
      by_cases hp : p.1 = k
      · have hpr : ¬p.1 = r := fun h => hkr (hp ▸ h)
        simp only [List.map_cons, if_pos hp, alistLookup, if_neg hkr, if_neg hpr]
        by_cases h2 : rest.any (fun p => p.1 = k) = true
        · exact ih h2
        · rw [Bool.not_eq_true] at h2
          clear ih hany
          induction rest with
          | nil => rfl
          | cons q m ihm =>
            simp only [List.any_cons, Bool.or_eq_false_iff] at h2
            have hq : ¬q.1 = k := by simpa using h2.1
            simp only [List.map_cons, if_neg hq]
            by_cases hqr : q.1 = r
            · simp [alistLookup, hqr]
            · simp only [alistLookup, if_neg hqr]
              exact ihm h2.2
      · simp only [List.map_cons, if_neg hp, alistLookup]
        by_cases hpr : p.1 = r
        · simp [hpr]
        · simp only [if_neg hpr]
          by_cases h2 : rest.any (fun p => p.1 = k) = true
          · exact ih h2
          · simp only [List.any_cons] at hany
            rcases Bool.or_eq_true_iff.mp hany with h1 | h1
            · exact absurd (of_decide_eq_true h1) hp
            · exact absurd h1 h2
  · rw [if_neg hany, alistLookup_append]
    have : alistLookup [(k, v)] r = none := by simp [alistLookup, hkr]
    simp [this]

/-- Keys of the dictionary after an in-place update: unchanged. -/
theorem dictKeys_dictInsert_mem (d : List (String × Criterion))
    (k : String) (v : Criterion) (h : d.any (fun p => p.1 = k) = true) :
    dictKeys (dictInsert d k v) = dictKeys d := by
  rw [dictInsert, if_pos h, dictKeys, dictKeys, List.map_map]
  refine List.map_congr_left ?_
  intro p _
  by_cases hp : p.1 = k
  · simp [hp]
  · simp [hp]

/-- Keys of the dictionary after inserting a fresh key: appended. -/
theorem dictKeys_dictInsert_notMem (d : List (String × Criterion))
    (k : String) (v : Criterion) (h : ¬d.any (fun p => p.1 = k) = true) :
    dictKeys (dictInsert d k v) = dictKeys d ++ [k] := by
  rw [dictInsert, if_neg h, dictKeys, dictKeys, List.map_append]
  rfl

/-- Function `dictInsert` preserves distinctness of the keys. -/
theorem dictKeys_dictInsert_nodup (d : List (String × Criterion))
    (k : String) (v : Criterion) (h : (dictKeys d).Nodup) :
    (dictKeys (dictInsert d k v)).Nodup := by
  by_cases hany : d.any (fun p => p.1 = k) = true
  · rw [dictKeys_dictInsert_mem d k v hany]; exact h
  · rw [dictKeys_dictInsert_notMem d k v hany]
    rw [List.nodup_append]
    refine ⟨h, List.nodup_singleton k, ?_⟩
    intro a ha hb
    rw [List.mem_singleton] at hb
    subst hb
    rw [Bool.not_eq_true, List.any_eq_false] at hany
    obtain ⟨p, hp, hpk⟩ := List.mem_map.mp ha
    exact hany p hp (by simpa using hpk)

/-- A key bound in a duplicate-free dictionary occurs in exactly one
entry. -/
theorem alistLookup_some_countP (r : String) :
    ∀ d : List (String × Criterion), (dictKeys d).Nodup →
      (alistLookup d r).isSome = true →
      d.countP (fun p => p.1 == r) = 1 := by
  intro d
  induction d with
  | nil => intro _ h; simp [alistLookup] at h
  | cons p rest ih =>
    intro hnd hsome
    have hnd' : (p.1 :: dictKeys rest).Nodup := by simpa [dictKeys] using hnd
    by_cases hp : p.1 = r
    · rw [List.countP_cons_of_pos _ _ (by simpa using hp)]
      have hrest : rest.countP (fun q => q.1 == r) = 0 := by
        rw [List.countP_eq_zero]
        intro q hq hbeq
        have hqr : q.1 = r := by simpa using hbeq
        have : p.1 ∈ dictKeys rest := by
          rw [dictKeys, List.mem_map]
          exact ⟨q, hq, by rw [hqr, hp]⟩
        exact (List.nodup_cons.mp hnd').1 this
      rw [hrest]
    · rw [List.countP_cons_of_neg _ _ (by simpa using hp)]
      rw [alistLookup, if_neg hp] at hsome
      exact ih (List.nodup_cons.mp hnd').2 hsome

/-- The Matrix-row predicate "accepted, with role `r`". -/
def roleRowP (r : String) (row : List String) : Bool :=
  acceptedRow row && (rowRole row == r)

/-- Along a successful load, the binding of a role is the criterion of the
last accepted row carrying it (`find?` over the reversed row list); a role
no accepted row carries keeps its binding from the accumulator. -/
theorem buildCriteria_lookup (r : String) :
    ∀ (rows : List (List String)) (acc d : List (String × Criterion)),
      buildCriteria acc rows = .ok d →
      alistLookup d r =
        match rows.reverse.find? (roleRowP r) with
        | some row => some (criterionD row)
        | none => alistLookup acc r := by
  intro rows
  induction rows with
  | nil =>
    intro acc d h
    injection h with h
    subst h
    simp
  | cons row rest ih =>
    intro acc d h
    rw [List.reverse_cons, List.find?_append]
    by_cases hacc : acceptedRow row = true
    · simp only [buildCriteria, if_pos hacc] at h
      cases hmn : cellMin row with
      | error e => rw [hmn] at h; cases hmx : cellMax row <;> rw [hmx] at h <;> cases h
      | ok mn =>
        cases hmx : cellMax row with
        | error e => rw [hmn, hmx] at h; cases h
        | ok mx =>
          rw [hmn, hmx] at h
          rw [ih _ _ h]
          cases hfind : rest.reverse.find? (roleRowP r) with
          | some row' => simp
          | none =>
            simp only [Option.none_or]
            by_cases hrr : rowRole row = r
            · rw [List.find?_cons_of_pos _ (by simp [roleRowP, hacc, hrr])]
              rw [← hrr]
              rw [alistLookup_dictInsert_self]
              simp [criterionD, cellMinD, cellMaxD, hmn, hmx]
            · rw [List.find?_cons_of_neg _ (by simp [roleRowP, hrr]),
                List.find?_nil]
              exact alistLookup_dictInsert_ne acc (rowRole row) _ r hrr
    · simp only [buildCriteria, if_neg hacc] at h
      rw [ih _ _ h]
      rw [List.find?_cons_of_neg _ (by simp [roleRowP, hacc]), List.find?_nil]
      cases rest.reverse.find? (roleRowP r) <;> simp

/-- A successful load starting from a duplicate-free accumulator yields a
duplicate-free dictionary. -/
theorem buildCriteria_nodup :
    ∀ (rows : List (List String)) (acc d : List (String × Criterion)),
      buildCriteria acc rows = .ok d →
      (dictKeys acc).Nodup → (dictKeys d).Nodup := by
  intro rows
  induction rows with
  | nil =>
    intro acc d h hnd
    injection h with h
    subst h
    exact hnd
  | cons row rest ih =>
    intro acc d h hnd
    by_cases hacc : acceptedRow row = true
    · simp only [buildCriteria, if_pos hacc] at h
      cases hmn : cellMin row with
      | error e => rw [hmn] at h; cases hmx : cellMax row <;> rw [hmx] at h <;> cases h
      | ok mn =>
        cases hmx : cellMax row with
        | error e => rw [hmn, hmx] at h; cases h
        | ok mx =>
          rw [hmn, hmx] at h
          exact ih _ _ h (dictKeys_dictInsert_nodup _ _ _ hnd)
    · simp only [buildCriteria, if_neg hacc] at h
      exact ih _ _ h hnd

/-! ## Claim C9: duplicate roles — last accepted row wins -/

/-- C9:  Whenever a successful load saw at least two accepted rows (and
in particular at least one) carrying role `r`, the returned dictionary
binds `r` in exactly one entry, and that binding is the criterion of the
last such row; no error is reported. -/
theorem matrix_criteria_last_duplicate_wins (data : List (List String))
    (d : List (String × Criterion)) (r : String)
    (hok : get_matrix_criteria data = .ok d)
    (hdup : 2 ≤ ((data.drop 1).filter (roleRowP r)).length) :
    d.countP (fun p => p.1 == r) = 1 ∧
    ∃ row, ((data.drop 1).filter (roleRowP r)).getLast? = some row ∧
      alistLookup d r = some (criterionD row) := by
  have hlen : ¬data.length < 2 := by
    intro hlt
    have h1 : (data.drop 1).length = data.length - 1 := List.length_drop 1 data
    have h2 : ((data.drop 1).filter (roleRowP r)).length ≤ (data.drop 1).length :=
      List.length_filter_le _ _
    omega
  rw [get_matrix_criteria, if_neg hlen] at hok
  have hlast : ((data.drop 1).filter (roleRowP r)).getLast? ≠ none := by
    intro hnone
    rw [List.getLast?_eq_none_iff] at hnone
    rw [hnone] at hdup
    simp at hdup
  obtain ⟨row, hrow⟩ := Option.ne_none_iff_exists'.mp hlast
  have hfind : (data.drop 1).reverse.find? (roleRowP r) = some row := by
    rw [← List.filter_getLast?]
    exact hrow
  have hlook : alistLookup d r = some (criterionD row) := by
    rw [buildCriteria_lookup r _ _ _ hok, hfind]
  refine ⟨?_, row, hrow, hlook⟩
  have hnd : (dictKeys d).Nodup :=
    buildCriteria_nodup _ _ _ hok (by simp [dictKeys])
  exact alistLookup_some_countP r d hnd (by rw [hlook]; rfl)

/-- A Matrix table with two accepted rows for the same role. -/
def c9data : List (List String) :=
  [["Role", "Keywords", "Min Sales ($)", "Max Sales ($)"],
   ["Admin", "admin,management", "0", "999999999"],
   ["Admin", "management", "100", "5000"]]

/-- The dictionary the load returns on `c9data`: one entry, the criterion
of the second row. -/
def c9dict : List (String × Criterion) :=
  [("Admin", ⟨"management", 100, 5000⟩)]

/-- Witness for C9 on `c9data`: "Admin" occurs once and carries the band of
the last row. -/
theorem matrix_criteria_last_duplicate_wins_witness :
    c9dict.countP (fun p => p.1 == "Admin") = 1 ∧
    ∃ row, ((c9data.drop 1).filter (roleRowP "Admin")).getLast? = some row ∧
      alistLookup c9dict "Admin" = some (criterionD row) :=
  matrix_criteria_last_duplicate_wins c9data c9dict "Admin" (by rfl) (by decide)

/-! ## Claim C5: save–load round trip -/

/-- A load in which every row is accepted and parses, the roles are
pairwise distinct and avoiding the keys of the accumulator, appends exactly one
rule per row, in row order. -/
theorem buildCriteria_all_accepted :
    ∀ (rows : List (List String)) (acc : List (String × Criterion)),
      (∀ row ∈ rows, acceptedRow row = true ∧
        (cellMin row).isOk = true ∧ (cellMax row).isOk = true) →
      (rows.map rowRole).Nodup →
      (∀ row ∈ rows, ¬rowRole row ∈ dictKeys acc) →
      buildCriteria acc rows
        = .ok (acc ++ rows.map (fun row => (rowRole row, criterionD row))) := by
  intro rows
  induction rows with
  | nil =>
    intro acc _ _ _
    simp [buildCriteria]
  | cons row rest ih =>
    intro acc hwf hnd hfresh
    obtain ⟨hacc, hmin, hmax⟩ := hwf row (List.mem_cons_self row rest)
    simp only [buildCriteria, if_pos hacc]
    cases hmn : cellMin row with
    | error e => rw [hmn] at hmin; simp [Except.isOk, Except.toBool] at hmin
    | ok mn =>
      cases hmx : cellMax row with
      | error e => rw [hmx] at hmax; simp [Except.isOk, Except.toBool] at hmax
      | ok mx =>
        show buildCriteria
            (dictInsert acc (rowRole row) ⟨rowKeywords row, mn, mx⟩) rest = _
        have hany : acc.any (fun p => p.1 = rowRole row) = false := by
          rw [List.any_eq_false]
          intro p hp hpr
          refine hfresh row (List.mem_cons_self row rest) ?_
          rw [dictKeys, List.mem_map]
          exact ⟨p, hp, of_decide_eq_true hpr⟩
        have hins : dictInsert acc (rowRole row) ⟨rowKeywords row, mn, mx⟩
            = acc ++ [(rowRole row, ⟨rowKeywords row, mn, mx⟩)] := by
          rw [dictInsert, if_neg (by simp [hany])]
        rw [hins]
        have hndrest : (rest.map rowRole).Nodup :=
          (List.nodup_cons.mp (by simpa using hnd)).2
        have hhead : ¬rowRole row ∈ rest.map rowRole :=
          (List.nodup_cons.mp (by simpa using hnd)).1
        have hfresh' : ∀ row' ∈ rest, ¬rowRole row'
            ∈ dictKeys (acc ++ [(rowRole row,
              (⟨rowKeywords row, mn, mx⟩ : Criterion))]) := by
          intro row' h hmem
          rw [dictKeys, List.map_append, List.mem_append] at hmem
          rcases hmem with hmem | hmem
          · exact hfresh row' (List.mem_cons_of_mem _ h) (by rw [dictKeys]; exact hmem)
          · rw [List.map_cons, List.map_nil, List.mem_singleton] at hmem
            have heq : rowRole row' = rowRole row := hmem
            exact hhead (heq ▸ List.mem_map_of_mem rowRole h)
        rw [ih (acc ++ [(rowRole row, (⟨rowKeywords row, mn, mx⟩ : Criterion))])
          (fun row' h => hwf row' (List.mem_cons_of_mem _ h)) hndrest hfresh']
        congr 1
        rw [List.append_assoc, List.singleton_append, List.map_cons]
        congr 2
        simp [criterionD, cellMinD, cellMaxD, hmn, hmx]

/-- C5:  For every well-formed criteria table — each data row accepted
by the load (at least four cells, non-empty role and keywords), each sales
cell empty or parsable, roles pairwise distinct — saving the loaded
RuleSet reproduces an equivalent table: the header row first, then one row
per rule with the same role, keywords, minSales and maxSales, in the order
of the original rows. -/
theorem matrix_criteria_roundtrip (header : List String)
    (rows : List (List String))
    (hwf : ∀ row ∈ rows, acceptedRow row = true ∧
      (cellMin row).isOk = true ∧ (cellMax row).isOk = true)
    (hnd : (rows.map rowRole).Nodup) :
    ∃ d, get_matrix_criteria (header :: rows) = .ok d ∧
      update_matrix_criteria d = matrixHeader :: rows.map (fun row =>
        [.str (rowRole row), .str (rowKeywords row),
         .num (cellMinD row), .num (cellMaxD row)]) := by
  refine ⟨rows.map (fun row => (rowRole row, criterionD row)), ?_, ?_⟩
  · rw [get_matrix_criteria]
    cases rows with
    | nil => simp
    | cons row rest =>
      rw [if_neg (by simp)]
      rw [List.drop_one, List.tail_cons]
      rw [buildCriteria_all_accepted (row :: rest) [] hwf hnd
        (fun _ _ h => by simp [dictKeys] at h)]
      rw [List.nil_append]
  · rw [update_matrix_criteria, List.map_map]
    rfl

/-- A well-formed Matrix table: two rules, full sales bands. -/
def c5rows : List (List String) :=
  [["Admin", "admin,management", "0", "999999999"],
   ["Production Specialist", "production,assembly", "100", "5000"]]

/-- Witness for C5 on a concrete two-rule table: the saved table is the
fixed header plus the two original rows with their parsed bands. -/
theorem matrix_criteria_roundtrip_witness :
    ∃ d, get_matrix_criteria
        (["Role", "Keywords", "Min Sales ($)", "Max Sales ($)"] :: c5rows)
        = .ok d ∧
      update_matrix_criteria d = matrixHeader :: c5rows.map (fun row =>
        [.str (rowRole row), .str (rowKeywords row),
         .num (cellMinD row), .num (cellMaxD row)]) :=
  matrix_criteria_roundtrip ["Role", "Keywords", "Min Sales ($)", "Max Sales ($)"]
    c5rows (by decide) (by decide)

/-! ## Claim C10: numeric coercion of the capacity model columns -/

/-- C10:  In the coerced capacity table (rows no wider than the header,
as the DataFrame constructor requires), every cell under a declared
numeric column is a number: the parse of the original cell, or `0` when
that cell is absent or fails to parse (`(... .bind parseFloat).getD 0` is
`0` exactly in those cases). -/
theorem capacity_model_numeric_coercion (header : List String)
    (rows : List (List String)) (i j : Nat)
    (_hw : ∀ row ∈ rows, row.length ≤ header.length)
    (hi : i < rows.length) (hj : j < header.length)
    (hnum : numericColumns.contains (header.getD j "") = true) :
    ((get_capacity_model_data (header :: rows)).getD (i + 1) []).getD j Value.missing
      = .num ((((rows.getD i []).get? j).bind parseFloat).getD 0) := by
  rw [get_capacity_model_data, List.getD_cons_succ]
  have h1 : (rows.map (coerceRow header)).getD i [] = coerceRow header (rows.getD i []) := by
    rw [List.getD_eq_getElem?_getD, List.getElem?_map,
      List.getElem?_eq_getElem hi, List.getD_eq_getElem?_getD,
      List.getElem?_eq_getElem hi]
    rfl
  rw [h1, coerceRow]
  have hj' : j < (List.range header.length).length := by
    rw [List.length_range]; exact hj
  rw [List.getD_eq_getElem?_getD, List.getElem?_map,
    List.getElem?_eq_getElem hj', List.getElem_range]
  simp only [Option.map_some', Option.getD_some]
  rw [if_pos hnum]

/-- A capacity table with one unparsable sales cell. -/
def c10data : List (List String) :=
  [["Sales Rep First", "Sales ($)"], ["John", "abc"], ["Jane", "2000"]]

/-- Witness for C10 on `c10data` at row 0, column "Sales ($)": the
unparsable cell "abc" comes back as the number 0. -/
theorem capacity_model_numeric_coercion_witness :
    ((get_capacity_model_data c10data).getD 1 []).getD 1 Value.missing
      = Value.num 0 :=
  (capacity_model_numeric_coercion ["Sales Rep First", "Sales ($)"]
    [["John", "abc"], ["Jane", "2000"]] 0 1 (by decide) (by decide) (by decide)
    (by decide)).trans (by rfl)

end Capacity
